import Mathlib

/-!
Verification development for the webfs access-control and metadata core
(filesync-rust).  The Rust sources under `src/webfs/src` are shallowly
embedded: pure functions become Lean functions, the transactional metadata
store becomes explicit state passing over finite maps, machine integers
become `Nat`, and external effects (HMAC computation, JWT signature
verification, document parsing, random id generation, wall-clock time) become
explicit function or value parameters of the embedded operations.

Modelling conventions used throughout:
* Unix timestamps are `Nat` (seconds).  `u64`/`u32` arithmetic in the code
  never comes close to overflow on these paths, so plain `Nat` is used.
* URLs are modelled post-parsing as a base, a path, and an ordered list of
  decoded query pairs (`UrlM`).  `HmacSigningKey::clean_url` plus
  `Url::parse`, and the final `Url::to_string` / re-parse round trip between
  signer and verifier, operate at the string level and preserve the path and
  the query-pair order; the embedding therefore works on the parsed form
  directly.  Percent-encoding is outside the model: both signer and verifier
  canonicalize over the decoded pair values.
* HMAC-SHA256 plus base64 encoding is an external primitive; it is modelled
  as an explicit parameter `mac : List Nat → String → String` (secret bytes,
  message, to encoded tag).  The verifier's base64-decode-and-compare of the
  provided tag against the recomputed tag is modelled as string equality of
  encoded tags.
* Rust's `u64::to_string` / `str::parse::<u64>` pair is modelled by an
  executable decimal codec (`u64ToString` / `parseU64?`) defined below.
-/

namespace FileSync

/-! ### Decimal rendering and parsing, modelling `to_string` / `parse::<u64>` -/

/-- Decimal digit character for a value below ten. -/
def digitToChar (d : Nat) : Char := Char.ofNat (48 + d)

/-- Fuel-driven digit accumulator (structural recursion, so that closed
renderings evaluate inside the kernel). -/
def natDigitsCore : Nat → Nat → List Char → List Char
  | 0, _, ds => ds
  | fuel + 1, n, ds =>
    if n < 10 then digitToChar n :: ds
    else natDigitsCore fuel (n / 10) (digitToChar (n % 10) :: ds)

/-- Decimal digit list of a natural number, most significant first. -/
def natDigits (n : Nat) : List Char := natDigitsCore (n + 1) n []

/-- Decimal string of a natural number, modelling Rust `u64::to_string`. -/
def u64ToString (n : Nat) : String := String.mk (natDigits n)

/-- Numeric value of an ASCII digit character, if it is one. -/
def charToDigit? (c : Char) : Option Nat :=
  if 48 ≤ c.toNat ∧ c.toNat ≤ 57 then some (c.toNat - 48) else none

/-- Left fold accumulating decimal digits; fails on a non-digit character. -/
def foldDigits : Nat → List Char → Option Nat
  | acc, [] => some acc
  | acc, c :: cs =>
    match charToDigit? c with
    | none => none
    | some d => foldDigits (acc * 10 + d) cs

/-- Parse of a decimal string, modelling Rust `str::parse::<u64>` (success
cases; the `u64` range bound is outside the model). -/
def parseU64? (s : String) : Option Nat :=
  match s.data with
  | [] => none
  | _ => foldDigits 0 s.data

/-! ### Signed-URL subsystem (`src/webfs/src/models/auth.rs`) -/

/-- A parsed URL: scheme-plus-authority (opaque here), path, and the ordered
list of decoded query pairs.  Mirrors what the code observes of `url::Url`
via `path()` and `query_pairs()`. -/
structure UrlM where
  base : String
  path : String
  query : List (String × String)
deriving DecidableEq, Repr

/-- `SignUrlRequest` from `models/auth.rs`, with the `url` field already
parsed (see the module conventions). -/
structure SignUrlRequest where
  id : String
  url : UrlM
  fs_id : String
  method : String
deriving DecidableEq, Repr

/-- `SignUrlResponse` from `models/auth.rs`.  `expires_at` is the unix
timestamp; the Rust sentinel `DateTime::from_timestamp(0,0)` is `0`. -/
structure SignUrlResponse where
  id : String
  url : UrlM
  fs_id : String
  method : String
  key_id : String
  signature : String
  expires_at : Nat
deriving DecidableEq, Repr

/-- `HmacSigningKey` from `models/auth.rs`; the 256-bit secret is an opaque
byte list, `expires_at` a unix timestamp (`DateTime<Local>` in the code). -/
structure HmacSigningKey where
  key_id : String
  secret : List Nat
  domain : String
  expires_at : Nat
  expires_in_secs : Nat
deriving DecidableEq, Repr

/-- External HMAC-SHA256 plus base64 primitive: secret bytes and message to
encoded tag. -/
abbrev Mac := List Nat → String → String

/-- The distinct failure cases of signed-URL verification, in the order the
code can produce them. -/
inductive VerifyErr
  | parseIntError
  | missingSignature
  | urlExpired
  | invalidSignature
  | keyExpired
  | keyNotFound
deriving DecidableEq, Repr

/-- The `anyhow` error message attached to each failure in the source
(`parseIntError` is the propagated `ParseIntError` of `value.parse`). -/
def VerifyErr.message : VerifyErr → String
  | .parseIntError => "invalid digit found in string"
  | .missingSignature => "Missing signature"
  | .urlExpired => "URL expired"
  | .invalidSignature => "Invalid signature"
  | .keyExpired => "Key is expired"
  | .keyNotFound => "Key not found"

/-- ASCII uppercase of one character (the fragment of Rust
`str::to_uppercase` exercised by HTTP method names). -/
def asciiUpperChar (c : Char) : Char :=
  if c.isLower then Char.ofNat (c.toNat - 32) else c

/-- ASCII uppercase of a string, modelling `str::to_uppercase` on the
method names that reach it. -/
def strToUpper (s : String) : String := String.mk (s.data.map asciiUpperChar)

/-- Rendering of one query pair inside the canonical string:
`format!("{}={}", k, v)`. -/
def queryPairString (kv : String × String) : String := kv.1 ++ "=" ++ kv.2

/-- The canonical query of a pair list: every pair except those keyed
`signature`, in order of appearance, joined by `&`.  This is what both
signer and verifier compute (`filter` + `map` + `join`). -/
def canonicalQueryOf (q : List (String × String)) : String :=
  String.intercalate "&" ((q.filter (fun kv => kv.1 ≠ "signature")).map queryPairString)

/-- The `full_query` step: prefix `?` unless the canonical query is empty. -/
def fullQueryOf (cq : String) : String := if cq ≠ "" then "?" ++ cq else ""

/-- `HmacSigningKey::generate_signed_url`.  `mac` is the HMAC primitive,
`freshId` the value `nanoid!()` would produce, `now` the current unix time.
URL cleaning plus `Url::parse` happen at the string level in the code and
are absorbed by the parsed `UrlM` representation. -/
def HmacSigningKey.generate_signed_url (mac : Mac) (freshId : String) (now : Nat)
    (key : HmacSigningKey) (req : SignUrlRequest) : SignUrlResponse :=
  let rid := if req.id = "" then freshId else req.id
  let method := if req.method = "" then "GET" else req.method
  let url := req.url
  let expires := now + key.expires_in_secs
  let qexp := url.query ++
    [("expires", u64ToString expires), ("id", rid), ("key_id", key.key_id)]
  let string_to_sign := strToUpper method ++ url.path ++ fullQueryOf (canonicalQueryOf qexp)
  let sig := mac key.secret string_to_sign
  { id := rid
    url := { url with query := qexp ++ [("signature", sig)] }
    fs_id := ""
    method := method
    key_id := key.key_id
    signature := sig
    expires_at := expires }

/-- State of the verifier's query-pair loop: latest `signature` value, latest
parsed `expires` value, canonical parts collected so far. -/
structure VState where
  sig : Option String
  exp : Option Nat
  parts : List String
deriving DecidableEq, Repr

/-- One iteration of the verifier's `for (key, value) in pairs` loop.  A
non-numeric `expires` value aborts the whole function via `?`. -/
def vstep (s : VState) (kv : String × String) : Except VerifyErr VState :=
  if kv.1 = "signature" then .ok { s with sig := some kv.2 }
  else if kv.1 = "expires" then
    match parseU64? kv.2 with
    | none => .error .parseIntError
    | some n => .ok { sig := s.sig, exp := some n, parts := s.parts ++ [queryPairString kv] }
  else .ok { s with parts := s.parts ++ [queryPairString kv] }

/-- The verifier's loop over all query pairs. -/
def vfold : VState → List (String × String) → Except VerifyErr VState
  | s, [] => .ok s
  | s, kv :: rest =>
    match vstep s kv with
    | .error e => .error e
    | .ok s2 => vfold s2 rest

/-- `HmacSigningKey::verify_signed_url`.  The base64 decode of the provided
signature and the byte comparison against the recomputed HMAC are modelled
as equality of encoded tags. -/
def HmacSigningKey.verify_signed_url (mac : Mac) (now : Nat)
    (key : HmacSigningKey) (resp : SignUrlResponse) : Except VerifyErr UrlM :=
  let url := resp.url
  let sig0 : Option String := if resp.signature ≠ "" then some resp.signature else none
  let exp0 : Option Nat := if resp.expires_at ≠ 0 then some resp.expires_at else none
  match vfold ⟨sig0, exp0, []⟩ url.query with
  | .error e => .error e
  | .ok s =>
    match s.sig with
    | none => .error .missingSignature
    | some sigTag =>
      let expCheck : Except VerifyErr Unit :=
        match s.exp with
        | some e => if now > e then .error .urlExpired else .ok ()
        | none => .ok ()
      match expCheck with
      | .error e => .error e
      | .ok _ =>
        let string_to_sign :=
          strToUpper resp.method ++ url.path ++ fullQueryOf (String.intercalate "&" s.parts)
        if mac key.secret string_to_sign ≠ sigTag then .error .invalidSignature
        else .ok url

/-- `SigningKeys` from `models/auth.rs` (the key table is an association
list standing for the `HashMap`; `last_create` is kept as a unix timestamp
offset, it is not read on any verified path). -/
structure SigningKeys where
  keys : List (String × HmacSigningKey)
  cur_key : Option HmacSigningKey
  last_create : Int
  domain : String
  key_expires_in_secs : Nat
  sig_expires_in_secs : Nat

/-- `SigningKeys::new`: both constructor arguments are raised to at least 60
before being stored; `last_create` is set 365 days into the past. -/
def SigningKeys.new (now : Int) (key_expires_in_secs sig_expires_in_secs : Nat) : SigningKeys :=
  let sigSecs := if sig_expires_in_secs < 60 then 60 else sig_expires_in_secs
  let keySecs := if key_expires_in_secs < 60 then 60 else key_expires_in_secs
  { keys := []
    cur_key := none
    last_create := now - 365 * 86400
    domain := ""
    key_expires_in_secs := keySecs
    sig_expires_in_secs := sigSecs }

/-- `HmacSigningKey::is_expired`: strictly past its own expiry instant. -/
def HmacSigningKey.is_expired (key : HmacSigningKey) (now : Nat) : Bool :=
  decide (key.expires_at < now)

/-- `SigningKeys::verify_signed_url`: look up the named key, reject an
absent key, reject an expired signing key, else delegate. -/
def SigningKeys.verify_signed_url (mac : Mac) (now : Nat)
    (sk : SigningKeys) (resp : SignUrlResponse) : Except VerifyErr UrlM :=
  match sk.keys.lookup resp.key_id with
  | some key =>
    if key.is_expired now then .error .keyExpired
    else key.verify_signed_url mac now resp
  | none => .error .keyNotFound

/-! #### Observable behaviour of the verifier loop

`lastSig`, `lastExp` and `nonSigParts` read off, from a query-pair list, the
final loop state the verifier reaches: the last `signature` value, the last
(parsed) `expires` value, and the collected canonical parts. -/

/-- Last `signature` query value, starting from the response-field seed. -/
def lastSig (s0 : Option String) : List (String × String) → Option String
  | [] => s0
  | kv :: rest => lastSig (if kv.1 = "signature" then some kv.2 else s0) rest

/-- Last parsed `expires` query value, starting from the response-field
seed (a pair whose value does not parse keeps the previous value; the loop
itself aborts in that case, see `vfold_parse_ok`). -/
def lastExp (e0 : Option Nat) : List (String × String) → Option Nat
  | [] => e0
  | kv :: rest =>
    lastExp
      (if kv.1 = "expires" then
        match parseU64? kv.2 with
        | some n => some n
        | none => e0
      else e0) rest

/-- Canonical parts: rendered non-`signature` pairs in order of appearance. -/
def nonSigParts (q : List (String × String)) : List String :=
  (q.filter (fun kv => kv.1 ≠ "signature")).map queryPairString

/-- Every `expires` value in the list parses as a decimal number. -/
def allExpParse (q : List (String × String)) : Bool :=
  q.all (fun kv => kv.1 ≠ "expires" ∨ (parseU64? kv.2).isSome)

/-- The seed values of the verifier loop coming from the response fields. -/
def seedSig (resp : SignUrlResponse) : Option String :=
  if resp.signature ≠ "" then some resp.signature else none

/-- Expiry seed: the `expires_at` field unless it is the epoch sentinel. -/
def seedExp (resp : SignUrlResponse) : Option Nat :=
  if resp.expires_at ≠ 0 then some resp.expires_at else none

/-- The `expires` value the verifier ends up checking. -/
def vExpires (resp : SignUrlResponse) : Option Nat :=
  lastExp (seedExp resp) resp.url.query

/-- The exact string the verifier recomputes the HMAC over. -/
def vStringToSign (resp : SignUrlResponse) : String :=
  strToUpper resp.method ++ resp.url.path ++
    fullQueryOf (String.intercalate "&" (nonSigParts resp.url.query))

/-- Byte-wise (codepoint) lexicographic comparison of character lists,
modelling Rust string ordering on the ASCII data seen here. -/
def strLeData : List Char → List Char → Bool
  | [], _ => true
  | _ :: _, [] => false
  | a :: as, b :: bs =>
    if a.toNat < b.toNat then true
    else if b.toNat < a.toNat then false
    else strLeData as bs

/-- String comparison used for sorting. -/
def strLe (a b : String) : Bool := strLeData a.data b.data

/-- Insertion step of a stable insertion sort on strings. -/
def insSortedStr (x : String) : List String → List String
  | [] => [x]
  | y :: ys => if strLe x y then x :: y :: ys else y :: insSortedStr x ys

/-- Ascending sort of strings (Rust `Vec::<String>::sort`). -/
def sortStrings (l : List String) : List String := l.foldr insSortedStr []

/-- Insertion step of a sort of query pairs by key. -/
def insSortedPair (kv : String × String) : List (String × String) → List (String × String)
  | [] => [kv]
  | p :: ps => if strLe kv.1 p.1 then kv :: p :: ps else p :: insSortedPair kv ps

/-- Sort of query pairs by key. -/
def sortPairsByKey (q : List (String × String)) : List (String × String) :=
  q.foldr insSortedPair []

/-- The canonical string as the specification document words it: method,
path, `?`, and the non-`signature` query parameters in sorted order.  Kept
only to compare against the canonical string the code actually builds. -/
def specSortedCanonicalQueryOf (q : List (String × String)) : String :=
  String.intercalate "&"
    ((sortPairsByKey (q.filter (fun kv => kv.1 ≠ "signature"))).map queryPairString)

/-! ### Token verifier (`src/webfs/src/auth/keycloak.rs`)

`verify_token` is embedded with explicit state passing for the process-wide
`JWKS_CACHE` and with the external effects as parameters: the identity
provider's current key set stands for what a JWKS fetch returns during this
call, and the `jsonwebtoken` primitives (`decode_header`, key construction,
`decode::<Claims>`) are functions of the candidate key.  The `Validation`
passed to every `decode` has `validate_exp = false`, so the library never
checks expiry on any path; `decode` below therefore only reports signature /
issuer / audience / malformed-token outcomes. -/

/-- One JWK as the code reads it from the provider. -/
structure JWK where
  kid : String
  n : String
  e : String
  use_ : String
  kty : String
  alg : String
deriving DecidableEq, Repr

/-- A fetched key set. -/
structure JWKS where
  keys : List JWK
deriving DecidableEq, Repr

/-- Cached key set plus its fetch instant (monotonic seconds). -/
structure CachedJWKS where
  jwks : JWKS
  fetched_at : Nat
deriving DecidableEq, Repr

/-- The decoded claims fields `verify_token` consults (the full `Claims`
struct has many more fields; only `exp` and `sub` flow into this function). -/
structure ClaimsM where
  sub : String
  exp : Nat
deriving DecidableEq, Repr

/-- Failure kinds of `decode::<Claims>` as `verify_token` distinguishes
them: `ErrorKind::InvalidSignature` versus every other decode error (wrong
issuer, wrong audience, malformed token, ...). -/
inductive JwtError
  | invalidSignature
  | otherError
deriving DecidableEq, Repr

/-- HTTP status codes `verify_token` can return as errors. -/
inductive Status
  | unauthorized
  | internalServerError
deriving DecidableEq, Repr

/-- External inputs of one `verify_token` call. -/
structure TokenEnv where
  now : Nat
  provider : JWKS
  headerKid : Option String
  rsaOk : JWK → Bool
  decode : JWK → Except JwtError ClaimsM

/-- `get_jwks`: serve the cache while it is younger than four hours, else
fetch from the provider and replace the cache.  The third component records
whether a fetch happened. -/
def get_jwks (cache : Option CachedJWKS) (now : Nat) (provider : JWKS) :
    JWKS × Option CachedJWKS × Bool :=
  match cache with
  | some c =>
    if now - c.fetched_at < 14400 then (c.jwks, some c, false)
    else (provider, some ⟨provider, now⟩, true)
  | none => (provider, some ⟨provider, now⟩, true)

/-- Everything observable about one `verify_token` call: its return value,
the cache it leaves behind, whether the failure path cleared the cache and
fetched a fresh key set, and whether a second verification attempt against
that fresh key set was made. -/
structure VerifyTokenOut where
  result : Except Status Bool
  cache : Option CachedJWKS
  refetched : Bool
  retried : Bool
deriving Repr

/-- `verify_token`.  Note the two success paths: the first decode's `Ok`
re-checks `claims.exp > now` manually, while the retry after the forced
refetch returns `Ok(true)` without any expiry check. -/
def verify_token (env : TokenEnv) (cache0 : Option CachedJWKS) : VerifyTokenOut :=
  let fetched := get_jwks cache0 env.now env.provider
  let jwks := fetched.1
  let cache1 := fetched.2.1
  match env.headerKid with
  | none => ⟨.error .unauthorized, cache1, false, false⟩
  | some kid =>
    match jwks.keys.find? (fun k => k.kid == kid) with
    | none => ⟨.error .unauthorized, cache1, false, false⟩
    | some key =>
      if env.rsaOk key = false then ⟨.error .internalServerError, cache1, false, false⟩
      else
        match env.decode key with
        | .ok claims => ⟨.ok (decide (claims.exp > env.now)), cache1, false, false⟩
        | .error .invalidSignature =>
          let refreshed := get_jwks none env.now env.provider
          let fresh := refreshed.1
          let cache2 := refreshed.2.1
          match fresh.keys.find? (fun k => k.kid == kid) with
          | none => ⟨.error .unauthorized, cache2, true, true⟩
          | some fkey =>
            if env.rsaOk fkey = false then ⟨.error .internalServerError, cache2, true, true⟩
            else
              match env.decode fkey with
              | .ok _ => ⟨.ok true, cache2, true, true⟩
              | .error _ => ⟨.ok false, cache2, true, true⟩
        | .error .otherError => ⟨.ok false, cache1, false, false⟩

/-- Outcome of the first `decode::<Claims>` attempt of a `verify_token`
call, when one is reached (header has a kid, kid is found, RSA components
parse). -/
def first_decode (env : TokenEnv) (cache0 : Option CachedJWKS) :
    Option (Except JwtError ClaimsM) :=
  let jwks := (get_jwks cache0 env.now env.provider).1
  match env.headerKid with
  | none => none
  | some kid =>
    match jwks.keys.find? (fun k => k.kid == kid) with
    | none => none
    | some key => if env.rsaOk key = false then none else some (env.decode key)

/-! ### Metadata store and pipelines (`src/webfs/src/storage.rs`,
`src/webfs/src/webfs/file_monitor.rs`, `src/webfs/src/models/files.rs`)

The embedded `redb` database is explicit state: the `filenames` table is a
membership list, the `filedesc` table a finite map from descriptor id to the
stored descriptor (`bincode` serialize/deserialize round-trips, so the map
stores the descriptor itself; the fallibility of serialize-plus-insert is
the `serOk` parameter).  The unused `channel` table is omitted. -/

/-- `FileDesc` from `models/file_desc.rs`. -/
structure FileDesc where
  id : String
  seq : Nat
  eng_descr : String
  chi_descr : String
  file_count : Nat
deriving DecidableEq, Repr

/-- `MediaEntry` from `models/files.rs`.  `pub_date` is seconds since epoch
(`NaiveDateTime`), `modified` seconds since epoch (`SystemTime`). -/
structure MediaEntry where
  guid : String
  title : String
  link : String
  description : String
  content_type : String
  file_name : String
  file_date_stamp : String
  day_night : String
  event : String
  event_code : String
  index : String
  event_desc : String
  location : String
  event_date_stamp : String
  media_type : String
  mime_type : String
  size : Nat
  pub_date : Int
  modified : Nat
deriving DecidableEq, Repr

/-- `Channel` from `models/files.rs`, plus the two members that the rest of
the repository uses but whose declarations are not under `src/`:
`copy_lang`, and `cache_id`.  Modelled from the spec: `cache_id` is the
channel identity string the in-memory cache is keyed by; `copy_lang` is the
channel's copy language (matched against `zh` / `en` prefixes). -/
structure Channel where
  name : String
  title : String
  link : String
  media_link : String
  description : String
  category : String
  source : String
  language : String
  author : String
  generator : String
  server_name : String
  file_path : String
  filter_extension : String
  output_path : String
  image : String
  image_path : String
  entries : List MediaEntry
  copy_lang : String
  cache_id : String
deriving DecidableEq, Repr

/-- The regex `RE_ZSV_INDEX_SINGLE` = `^(\d[a-z]?)$`: one ASCII digit
optionally followed by one ASCII lowercase letter. -/
def zsvIndexSingle (s : String) : Bool :=
  match s.data with
  | [c] => c.isDigit
  | [c, d] => c.isDigit && d.isLower
  | _ => false

/-- `MediaEntry::normalized_event_id`: pad a single-digit event index with a
leading zero so lexical and numeric ordering agree. -/
def MediaEntry.normalized_event_id (e : MediaEntry) (pre : String) : String :=
  let event_part := if zsvIndexSingle e.event then "0" ++ e.event else e.event
  pre ++ e.file_date_stamp ++ "-" ++ event_part

/-- The embedded database file: `filenames` and `filedesc` tables. -/
structure StorageState where
  filenames : List String
  filedesc : String → Option FileDesc

/-- Point update of the `filedesc` table. -/
def updateMap (m : String → Option FileDesc) (k : String) (v : FileDesc) :
    String → Option FileDesc :=
  fun x => if x = k then some v else m x

/-- Body of the `insert_file_descs` write transaction: serialize and insert
each descriptor in order; the first failure aborts the transaction. -/
def insertTxn (serOk : FileDesc → Bool) (tbl : String → Option FileDesc) :
    List FileDesc → Option (String → Option FileDesc)
  | [] => some tbl
  | d :: ds => if serOk d then insertTxn serOk (updateMap tbl d.id d) ds else none

/-- `Storage::insert_file_descs`: one write transaction around the whole
batch; the table is replaced only on commit, an aborted transaction leaves
the committed state untouched. -/
def Storage.insert_file_descs (serOk : FileDesc → Bool) (st : StorageState)
    (ds : List FileDesc) : Except Unit StorageState :=
  match insertTxn serOk st.filedesc ds with
  | none => .error ()
  | some t => .ok { st with filedesc := t }

/-- `Storage::get_file_desc` (read transaction on the committed state). -/
def Storage.get_file_desc (st : StorageState) (id : String) : Option FileDesc :=
  st.filedesc id

/-- `Storage::filename_exists`. -/
def Storage.filename_exists (st : StorageState) (f : String) : Bool :=
  st.filenames.contains f

/-- `Storage::insert_filenames` (presence-only set; duplicate keys are
idempotent in the keyed table). -/
def Storage.insert_filenames (st : StorageState) (fs : List String) : StorageState :=
  { st with filenames := st.filenames ++ fs }

/-- Substring test (Rust `str::contains` with a literal pattern). -/
def strContains (s pat : String) : Bool := decide ((s.splitOn pat).length > 1)

/-- `Channel::set_entries`: filter by extension, then route the non-empty
list through photo sorting or pub-date cleaning plus audio/video sorting.
The two sort pipelines (`sort_photo_entries`, and `clean_pub_date` followed
by `sort_av_entries`) iterate Rust `HashMap`s and read the local timezone,
so their exact output order is environment-dependent; they are passed in as
explicit functions. -/
def Channel.set_entriesM (sortPhoto cleanSortAv : List MediaEntry → List MediaEntry)
    (c : Channel) (entries : List MediaEntry) : Channel :=
  let files :=
    if c.filter_extension = "" ∨ c.filter_extension = "*" then entries
    else entries.filter (fun e => e.file_name.endsWith c.filter_extension)
  let files :=
    match files with
    | [] => files
    | f :: _ =>
      if strContains f.link "Pictures" || strContains f.link "Photos" then sortPhoto files
      else cleanSortAv files
  { c with entries := files }

/-- The `entryMap` of `Storage::fill_descriptions`: cached entries inserted
into a `HashMap` by normalized event id in iteration order, so the last
entry with a given id wins. -/
def lastInsert (es : List MediaEntry) (key : String) : Option MediaEntry :=
  es.foldl (fun acc e => if e.normalized_event_id "zsv" = key then some e else acc) none

/-- Per-entry body of the `Storage::fill_descriptions` loop.  `nc` is
`formatter::normalize_code`, whose definition is not under `src/` (modelled
as an opaque string formatter); `tbl` is the `filedesc` table. -/
def fillEntry (nc : String → String) (tbl : String → Option FileDesc) (copy_lang : String)
    (emap : String → Option MediaEntry) (e : MediaEntry) : MediaEntry :=
  let key := e.normalized_event_id "zsv"
  match tbl key with
  | some desc =>
    if copy_lang.startsWith "zh" then
      if desc.chi_descr ≠ "" then
        let evt := nc e.event
        let evt := if e.index ≠ "" then evt ++ "-" ++ e.index else evt
        let evt := if evt ≠ "" then " (" ++ evt ++ ")" else evt
        { e with description := desc.chi_descr ++ evt }
      else e
    else if copy_lang.startsWith "en" then
      if desc.eng_descr ≠ "" then
        let evt := nc e.event
        let evt := if e.index ≠ "" then evt ++ "-" ++ e.index else evt
        let evt := if evt ≠ "" then " (" ++ evt ++ ")" else evt
        { e with description := desc.eng_descr ++ evt }
      else e
    else e
  | none =>
    if copy_lang = "zh" then
      match emap key with
      | some cached => { e with description := cached.description }
      | none => e
    else e

/-- `Storage::fill_descriptions`: merge stored descriptors into the
channel's entries, falling back to the cached description for `zh` channels,
then run the result through `set_entries`. -/
def Storage.fill_descriptions (nc : String → String)
    (sortPhoto cleanSortAv : List MediaEntry → List MediaEntry)
    (st : StorageState) (channel : Channel) (cached_ch : Option (Channel × Nat)) : Channel :=
  let emap := fun key =>
    match cached_ch with
    | some (c, _) => lastInsert c.entries key
    | none => none
  let entries := channel.entries.map (fillEntry nc st.filedesc channel.copy_lang emap)
  Channel.set_entriesM sortPhoto cleanSortAv channel entries

/-- The per-entry tuple the change-detection gate compares. -/
def entryInfo (es : List MediaEntry) : List (String × String × Int) :=
  es.map (fun e => (e.file_name, e.description, e.pub_date))

/-- The in-memory channel cache: channel identity to snapshot plus
computed-at instant. -/
abbrev ChCache := String → Option (Channel × Nat)

/-- `Storage::channel_descriptions`: fill descriptions against the cached
snapshot, compare the per-entry `(file_name, description, pub_date)` tuples,
and replace the cache slot only on a difference (or a cache miss).  Returns
the filled channel, the `changed` flag, and the updated cache. -/
def Storage.channel_descriptions (nc : String → String)
    (sortPhoto cleanSortAv : List MediaEntry → List MediaEntry)
    (st : StorageState) (ch : Channel) (cache : ChCache) (now : Nat) :
    (Channel × Bool) × ChCache :=
  let cached_ch_option := cache ch.cache_id
  let filled_ch := Storage.fill_descriptions nc sortPhoto cleanSortAv st ch cached_ch_option
  let changed :=
    match cached_ch_option with
    | some (cached_ch, _) => decide (entryInfo filled_ch.entries ≠ entryInfo cached_ch.entries)
    | none => true
  let cache2 :=
    if changed then
      fun k => if k = ch.cache_id then some (filled_ch, now) else cache k
    else cache
  ((filled_ch, changed), cache2)

/-- One message of the Stage-B loop `fill_descriptions` in
`file_monitor.rs`: run `channel_descriptions` and forward the filled
snapshot downstream only when it changed. -/
def fill_descriptions_step (nc : String → String)
    (sortPhoto cleanSortAv : List MediaEntry → List MediaEntry)
    (st : StorageState) (msg : String × Channel) (cache : ChCache) (now : Nat) :
    ChCache × Option (String × Channel) :=
  let r := Storage.channel_descriptions nc sortPhoto cleanSortAv st msg.2 cache now
  (r.2, if r.1.2 then some (msg.1, r.1.1) else none)

/-! #### Descriptor extraction scan (`scan_and_store`) -/

/-- Observable outcome of one `scan_and_store` tick: the new store state,
how many description documents were opened and parsed
(`read_file_descriptor` calls), and how many descriptors were written. -/
structure ScanOutcome where
  st : StorageState
  parses : Nat
  descWrites : Nat

/-- The `for file in &new_files` loop: parse each new document; a parse
error is logged and skipped, a failed batch insert aborts the scan. -/
def scanLoop (parse : String → Except Unit (List FileDesc)) (serOk : FileDesc → Bool) :
    List String → StorageState → Nat → Nat → Except Unit ScanOutcome
  | [], st, p, w => .ok ⟨st, p, w⟩
  | f :: fs, st, p, w =>
    match parse f with
    | .ok records =>
      match Storage.insert_file_descs serOk st records with
      | .error e => .error e
      | .ok st2 => scanLoop parse serOk fs st2 (p + 1) (w + records.length)
    | .error _ => scanLoop parse serOk fs st (p + 1) w

/-- `scan_and_store`: collect the matching directory entries (a `HashSet`,
hence deduplicated), keep those not yet seen, process them in sorted order,
then mark every matching filename as seen regardless of per-file parse
failures.  `parse` is `read_file_descriptor` (document I/O plus docx table
extraction), `rx` the configured filename pattern. -/
def scan_and_store (parse : String → Except Unit (List FileDesc)) (serOk : FileDesc → Bool)
    (rx : String → Bool) (dirFiles : List String) (st : StorageState) :
    Except Unit ScanOutcome :=
  let current_files := (dirFiles.filter rx).eraseDups
  let new_files := current_files.filter (fun f => !(Storage.filename_exists st f))
  let new_files := sortStrings new_files
  match scanLoop parse serOk new_files st 0 0 with
  | .error e => .error e
  | .ok out => .ok ⟨Storage.insert_filenames out.st current_files, out.parses, out.descWrites⟩

/-- Post-signing mutation of a signed URL: the same response carrying a
different query-pair list (what an attacker editing the URL produces). -/
def mutateQuery (resp : SignUrlResponse) (q : List (String × String)) : SignUrlResponse :=
  { resp with url := { resp.url with query := q } }

/-! ### Concrete fixtures for witnesses and counterexamples -/

/-- Concrete stand-in for the HMAC primitive in closed evaluations; tags are
message-prefixed, so distinct canonical strings give distinct tags. -/
def macFix : Mac := fun _ msg => "tag|" ++ msg

/-- Concrete signing key. -/
def keyFix : HmacSigningKey :=
  { key_id := "k1"
    secret := [1, 2, 3]
    domain := "example.com"
    expires_at := 5000
    expires_in_secs := 300 }

/-- Concrete sign request with one pre-existing query parameter whose key
sorts after `expires`, `id` and `key_id`. -/
def reqFix : SignUrlRequest :=
  { id := "rid"
    url := { base := "https://h", path := "/f", query := [("z", "1")] }
    fs_id := ""
    method := "get" }

/-- Sign request whose URL already carries a non-numeric `expires`
query parameter. -/
def reqBadExp : SignUrlRequest :=
  { id := "rid"
    url := { base := "https://h", path := "/f", query := [("expires", "x")] }
    fs_id := ""
    method := "GET" }

/-- Sign request with empty `id` and `method`, for the defaulting claim. -/
def reqEmptyFix : SignUrlRequest :=
  { id := ""
    url := { base := "https://h", path := "/f", query := [] }
    fs_id := ""
    method := "" }

/-- Empty signing-key table. -/
def skEmptyFix : SigningKeys := SigningKeys.new 0 600 300

/-- Table holding `keyFix` under its id. -/
def skWithKeyFix : SigningKeys :=
  { skEmptyFix with keys := [("k1", keyFix)] }

/-- Response naming an absent key. -/
def respNoKeyFix : SignUrlResponse :=
  { id := "i", url := { base := "https://h", path := "/f", query := [] }, fs_id := ""
    method := "GET", key_id := "nope", signature := "s", expires_at := 0 }

/-- Response naming `keyFix` with a long-past embedded `expires` of 5 and a
non-empty signature. -/
def respUrlExpFix : SignUrlResponse :=
  { id := "i", url := { base := "https://h", path := "/f", query := [("expires", "5")] }
    fs_id := "", method := "GET", key_id := "k1", signature := "s", expires_at := 0 }

/-- Concrete descriptors for store witnesses. -/
def descAFix : FileDesc :=
  { id := "a", seq := 1, eng_descr := "first", chi_descr := "", file_count := 2 }

def descBFix : FileDesc :=
  { id := "b", seq := 2, eng_descr := "second", chi_descr := "", file_count := 3 }

def descBadFix : FileDesc :=
  { id := "bad", seq := 3, eng_descr := "third", chi_descr := "", file_count := 1 }

/-- Empty store. -/
def stEmptyFix : StorageState := { filenames := [], filedesc := fun _ => none }

/-- Store state after one scan of `dirFilesFix` with `parseFix`. -/
def st1Fix : StorageState :=
  { filenames := ["doc1.docx"], filedesc := fun k => if k = "a" then some descAFix else none }

/-- Directory listing, match-all pattern and constant parser for the scan
witness. -/
def dirFilesFix : List String := ["doc1.docx"]

def rxTrueFix : String → Bool := fun _ => true

def parseFix : String → Except Unit (List FileDesc) := fun _ => .ok [descAFix]

def serTrueFix : FileDesc → Bool := fun _ => true

/-- Identity stand-ins for the opaque formatter and the sort pipelines. -/
def ncFix : String → String := fun s => s

def sortFix : List MediaEntry → List MediaEntry := fun es => es

/-- A media entry and a one-entry channel for the gate witness. -/
def entryFix : MediaEntry :=
  { guid := "g", title := "t", link := "x", description := "d", content_type := "video"
    file_name := "zsv250101-3.mp4", file_date_stamp := "250101", day_night := ""
    event := "3", event_code := "", index := "", event_desc := "", location := ""
    event_date_stamp := "", media_type := "video", mime_type := "video/mp4"
    size := 10, pub_date := 100, modified := 50 }

def chFix : Channel :=
  { name := "c", title := "C", link := "l", media_link := "m", description := ""
    category := "", source := "config", language := "en-us", author := ""
    generator := "g", server_name := "s", file_path := "/p", filter_extension := ""
    output_path := "/o", image := "", image_path := "", entries := [entryFix]
    copy_lang := "en", cache_id := "en/c" }

/-- Empty channel cache. -/
def emptyChCacheFix : ChCache := fun _ => none

/-- JWK the stale cache holds. -/
def jwkOld : JWK :=
  { kid := "k1", n := "n-old", e := "AQAB", use_ := "sig", kty := "RSA", alg := "RS256" }

/-- JWK the provider currently serves (same kid, rotated material). -/
def jwkNew : JWK :=
  { kid := "k1", n := "n-new", e := "AQAB", use_ := "sig", kty := "RSA", alg := "RS256" }

/-- Environment for the retry scenario: the token's signature fails against
the cached key but verifies against the refetched key, and its `exp` claim
is `0`, i.e. long past. -/
def envExpiredRetry : TokenEnv :=
  { now := 1000
    provider := { keys := [jwkNew] }
    headerKid := some "k1"
    rsaOk := fun _ => true
    decode := fun k =>
      if k.n = "n-old" then .error .invalidSignature
      else .ok { sub := "alice", exp := 0 } }

/-- Fresh (age 1000 s, within the 4 h TTL) cache holding the stale key. -/
def cacheOld : Option CachedJWKS :=
  some { jwks := { keys := [jwkOld] }, fetched_at := 0 }

/-! ## Theorems -/

/-! ### Decimal codec lemmas -/

theorem foldDigits_append (acc : Nat) (xs ys : List Char) :
    foldDigits acc (xs ++ ys) =
      (foldDigits acc xs).bind (fun a => foldDigits a ys) := by
  induction xs generalizing acc with
  | nil => simp [foldDigits]
  | cons c cs ih =>
    simp only [List.cons_append, foldDigits]
    cases h : charToDigit? c with
    | none => simp
    | some d => simp [ih]

theorem charToDigit?_digitToChar (d : Nat) (h : d < 10) :
    charToDigit? (digitToChar d) = some d := by
  have hval : (digitToChar d).toNat = 48 + d := by
    simp only [digitToChar, Char.toNat]
    rw [Char.ofNat, dif_pos]
    · rfl
    · show Nat.isValidChar (48 + d)
      left
      omega
  simp only [charToDigit?, hval]
  rw [if_pos (by omega)]
  congr 1
  omega

theorem natDigitsCore_append (fuel : Nat) :
    ∀ (n : Nat) (ds : List Char),
      natDigitsCore fuel n ds = natDigitsCore fuel n [] ++ ds := by
  induction fuel with
  | zero => intro n ds; rfl
  | succ fuel ih =>
    intro n ds
    by_cases h : n < 10
    · simp [natDigitsCore, h]
    · simp only [natDigitsCore, h, if_false]
      rw [ih (n / 10) (digitToChar (n % 10) :: ds), ih (n / 10) [digitToChar (n % 10)]]
      simp

theorem natDigitsCore_fuel (n : Nat) :
    ∀ fuel, n < fuel → natDigitsCore fuel n [] = natDigitsCore (n + 1) n [] := by
  induction n using Nat.strong_induction_on with
  | _ n ih =>
    intro fuel hfuel
    by_cases h : n < 10
    · cases fuel with
      | zero => omega
      | succ f => simp [natDigitsCore, h]
    · cases fuel with
      | zero => omega
      | succ f =>
        have hdiv : n / 10 < n := Nat.div_lt_self (by omega) (by norm_num)
        simp only [natDigitsCore, h, if_false]
        rw [natDigitsCore_append f, natDigitsCore_append n]
        rw [ih (n / 10) hdiv f (by omega), ih (n / 10) hdiv n (by omega)]

/-- The recursive unfolding of `natDigits`. -/
theorem natDigits_eq (n : Nat) :
    natDigits n = if n < 10 then [digitToChar n]
      else natDigits (n / 10) ++ [digitToChar (n % 10)] := by
  by_cases h : n < 10
  · simp [natDigits, natDigitsCore, h]
  · have hdiv : n / 10 < n := Nat.div_lt_self (by omega) (by norm_num)
    simp only [natDigits, natDigitsCore, h, if_false]
    rw [natDigitsCore_append n, natDigitsCore_fuel (n / 10) n (by omega)]
    rfl

theorem foldDigits_natDigits (n : Nat) :
    ∀ acc, foldDigits acc (natDigits n) = some (acc * 10 ^ (natDigits n).length + n) := by
  induction n using Nat.strong_induction_on with
  | _ n ih =>
    intro acc
    by_cases h : n < 10
    · rw [natDigits_eq, if_pos h]
      simp [foldDigits, charToDigit?_digitToChar n h]
    · rw [natDigits_eq, if_neg h]
      have hlt : n / 10 < n :=
        Nat.div_lt_self (by omega) (by norm_num)
      rw [foldDigits_append, ih (n / 10) hlt acc]
      have hd : n % 10 < 10 := Nat.mod_lt _ (by norm_num)
      simp only [Option.some_bind, foldDigits, charToDigit?_digitToChar _ hd,
        List.length_append, List.length_cons, List.length_nil, Nat.zero_add]
      congr 1
      rw [pow_succ, ← mul_assoc]
      have := Nat.div_add_mod n 10
      omega

theorem natDigits_ne_nil (n : Nat) : natDigits n ≠ [] := by
  by_cases h : n < 10
  · rw [natDigits_eq, if_pos h]; simp
  · rw [natDigits_eq, if_neg h]; simp

/-- Round trip: parsing the rendered decimal string returns the value. -/
theorem parseU64?_u64ToString (n : Nat) : parseU64? (u64ToString n) = some n := by
  have h := foldDigits_natDigits n 0
  simp only [Nat.zero_mul, Nat.zero_add] at h
  simp only [parseU64?, u64ToString]
  cases hd : natDigits n with
  | nil => exact absurd hd (natDigits_ne_nil n)
  | cons c cs =>
    show foldDigits 0 (c :: cs) = some n
    rw [← hd]
    exact h

/-! ### Verifier-loop lemmas -/

theorem lastSig_cons (s0 : Option String) (kv : String × String) (rest : List (String × String)) :
    lastSig s0 (kv :: rest) = lastSig (if kv.1 = "signature" then some kv.2 else s0) rest := rfl

theorem lastExp_cons (e0 : Option Nat) (kv : String × String) (rest : List (String × String)) :
    lastExp e0 (kv :: rest) =
      lastExp
        (if kv.1 = "expires" then
          match parseU64? kv.2 with
          | some n => some n
          | none => e0
        else e0) rest := rfl

theorem lastSig_append (s0 : Option String) (xs ys : List (String × String)) :
    lastSig s0 (xs ++ ys) = lastSig (lastSig s0 xs) ys := by
  induction xs generalizing s0 with
  | nil => rfl
  | cons kv rest ih => simp only [List.cons_append, lastSig_cons, ih]

theorem lastExp_append (e0 : Option Nat) (xs ys : List (String × String)) :
    lastExp e0 (xs ++ ys) = lastExp (lastExp e0 xs) ys := by
  induction xs generalizing e0 with
  | nil => rfl
  | cons kv rest ih => simp only [List.cons_append, lastExp_cons, ih]

theorem nonSigParts_append (xs ys : List (String × String)) :
    nonSigParts (xs ++ ys) = nonSigParts xs ++ nonSigParts ys := by
  simp [nonSigParts, List.filter_append]

theorem allExpParse_append (xs ys : List (String × String)) :
    allExpParse (xs ++ ys) = (allExpParse xs && allExpParse ys) := by
  simp [allExpParse, List.all_append]

/-- When every `expires` value parses, the verifier's loop never aborts and
reaches exactly the state read off by `lastSig`, `lastExp`, `nonSigParts`. -/
theorem vfold_parse_ok (q : List (String × String)) :
    ∀ s : VState, allExpParse q = true →
      vfold s q = .ok ⟨lastSig s.sig q, lastExp s.exp q, s.parts ++ nonSigParts q⟩ := by
  induction q with
  | nil => intro s _; simp [vfold, lastSig, lastExp, nonSigParts]
  | cons kv rest ih =>
    intro s hall
    have hall2 : allExpParse rest = true := by
      have := hall
      simp only [allExpParse, List.all_cons, Bool.and_eq_true] at this
      exact this.2
    have hkv : kv.1 ≠ "expires" ∨ (parseU64? kv.2).isSome = true := by
      have := hall
      simp only [allExpParse, List.all_cons, Bool.and_eq_true, decide_eq_true_eq] at this
      exact this.1
    by_cases hsig : kv.1 = "signature"
    · have hexp : kv.1 ≠ "expires" := by rw [hsig]; decide
      simp only [vfold, vstep, if_pos hsig, lastSig_cons, lastExp_cons, if_pos hsig,
        if_neg hexp, nonSigParts, List.filter_cons]
      rw [ih _ hall2]
      simp [nonSigParts, hsig]
    · by_cases hexp : kv.1 = "expires"
      · rcases hkv with h | h
        · exact absurd hexp h
        · obtain ⟨n, hn⟩ := Option.isSome_iff_exists.mp h
          simp only [vfold, vstep, if_neg hsig, if_pos hexp, hn, lastSig_cons, if_neg hsig,
            lastExp_cons, if_pos hexp]
          rw [ih _ hall2]
          simp only [nonSigParts, List.filter_cons]
          rw [if_pos (by simpa using hsig)]
          simp [List.append_assoc]
      · simp only [vfold, vstep, if_neg hsig, if_neg hexp, lastSig_cons, if_neg hsig,
          lastExp_cons, if_neg hexp]
        rw [ih _ hall2]
        simp only [nonSigParts, List.filter_cons]
        rw [if_pos (by simpa using hsig)]
        simp [List.append_assoc]

/-- Closed-form behaviour of `HmacSigningKey::verify_signed_url` when every
`expires` value in the query parses. -/
theorem verify_signed_url_char (mac : Mac) (now : Nat) (key : HmacSigningKey)
    (resp : SignUrlResponse) (hq : allExpParse resp.url.query = true) :
    key.verify_signed_url mac now resp =
      match lastSig (seedSig resp) resp.url.query with
      | none => .error .missingSignature
      | some sigTag =>
        match vExpires resp with
        | some e =>
          if now > e then .error .urlExpired
          else if mac key.secret (vStringToSign resp) ≠ sigTag then .error .invalidSignature
          else .ok resp.url
        | none =>
          if mac key.secret (vStringToSign resp) ≠ sigTag then .error .invalidSignature
          else .ok resp.url := by
  simp only [HmacSigningKey.verify_signed_url]
  rw [vfold_parse_ok _ _ hq]
  simp only [seedSig, seedExp, vExpires, vStringToSign, List.nil_append]
  cases lastSig (if resp.signature ≠ "" then some resp.signature else none) resp.url.query with
  | none => rfl
  | some sigTag =>
    cases lastExp (if resp.expires_at ≠ 0 then some resp.expires_at else none) resp.url.query with
    | none => rfl
    | some e => by_cases he : now > e <;> simp [he]

/-! ### Claim C9 -/

/-- C9: `SigningKeys::new` silently clamps both constructor arguments to a
minimum of 60, so every constructed state has `key_expires_in_secs ≥ 60`
and `sig_expires_in_secs ≥ 60`: no signature-validity window or key
lifetime below one minute can be configured. -/
theorem signing_keys_new_clamps (now : Int) (keySecs sigSecs : Nat) :
    60 ≤ (SigningKeys.new now keySecs sigSecs).key_expires_in_secs ∧
      60 ≤ (SigningKeys.new now keySecs sigSecs).sig_expires_in_secs := by
  simp only [SigningKeys.new]
  constructor <;> (split <;> omega)

/-! ### Claim C10 -/

/-- C10: `generate_signed_url` fills in defaults before signing: an empty
request id is replaced by the freshly generated id, which is embedded as the
`id` query parameter of the signed URL; an empty method signs with `GET`;
and the canonical string always starts with the uppercased method. -/
theorem generate_signed_url_defaults (mac : Mac) (fid : String) (now : Nat)
    (key : HmacSigningKey) (req : SignUrlRequest) :
    (req.id = "" →
      (HmacSigningKey.generate_signed_url mac fid now key req).id = fid ∧
      ("id", fid) ∈ (HmacSigningKey.generate_signed_url mac fid now key req).url.query) ∧
    (req.method = "" →
      (HmacSigningKey.generate_signed_url mac fid now key req).signature =
        mac key.secret ("GET" ++ req.url.path ++
          fullQueryOf (canonicalQueryOf (req.url.query ++
            [("expires", u64ToString (now + key.expires_in_secs)),
             ("id", (HmacSigningKey.generate_signed_url mac fid now key req).id),
             ("key_id", key.key_id)])))) ∧
    (HmacSigningKey.generate_signed_url mac fid now key req).signature =
      mac key.secret
        (strToUpper (if req.method = "" then "GET" else req.method) ++ req.url.path ++
          fullQueryOf (canonicalQueryOf (req.url.query ++
            [("expires", u64ToString (now + key.expires_in_secs)),
             ("id", (HmacSigningKey.generate_signed_url mac fid now key req).id),
             ("key_id", key.key_id)]))) := by
  have h3 : (HmacSigningKey.generate_signed_url mac fid now key req).signature =
      mac key.secret
        (strToUpper (if req.method = "" then "GET" else req.method) ++ req.url.path ++
          fullQueryOf (canonicalQueryOf (req.url.query ++
            [("expires", u64ToString (now + key.expires_in_secs)),
             ("id", (HmacSigningKey.generate_signed_url mac fid now key req).id),
             ("key_id", key.key_id)]))) := rfl
  refine ⟨?_, ?_, h3⟩
  · intro hid
    constructor
    · show (if req.id = "" then fid else req.id) = fid
      rw [if_pos hid]
    · have hq : (HmacSigningKey.generate_signed_url mac fid now key req).url.query =
        (req.url.query ++
          [("expires", u64ToString (now + key.expires_in_secs)),
           ("id", if req.id = "" then fid else req.id), ("key_id", key.key_id)]) ++
          [("signature", (HmacSigningKey.generate_signed_url mac fid now key req).signature)] := rfl
      rw [hq, if_pos hid]
      simp
  · intro hm
    rw [h3, hm]
    have hg : strToUpper "GET" = "GET" := rfl
    simp [hg]

/-- Witness for C10 at a concrete empty-id, empty-method request. -/
theorem generate_signed_url_defaults_witness :
    reqEmptyFix.id = "" ∧
    (HmacSigningKey.generate_signed_url macFix "fresh1" 100 keyFix reqEmptyFix).id = "fresh1" ∧
    ("id", "fresh1") ∈
      (HmacSigningKey.generate_signed_url macFix "fresh1" 100 keyFix reqEmptyFix).url.query := by
  refine ⟨rfl, ?_, ?_⟩
  · exact ((generate_signed_url_defaults macFix "fresh1" 100 keyFix reqEmptyFix).1 rfl).1
  · exact ((generate_signed_url_defaults macFix "fresh1" 100 keyFix reqEmptyFix).1 rfl).2

/-! ### Claim C2 -/

/-- C2: the claim that `verify_token` reports a token valid only when its
`exp` claim is strictly in the future on every code path fails on the retry
path: with a stale cached key (signature mismatch) and a provider key that
verifies, a token whose `exp` is `0` — far past `now = 1000` — is reported
valid, because the retry's `decode` result is returned without the manual
expiry re-check (and the `Validation` has `validate_exp = false`). -/
theorem verify_token_retry_accepts_expired :
    (verify_token envExpiredRetry cacheOld).result = .ok true ∧
    envExpiredRetry.decode jwkNew = .ok { sub := "alice", exp := 0 } ∧
    first_decode envExpiredRetry cacheOld = some (.error .invalidSignature) ∧
    envExpiredRetry.now = 1000 := by
  exact ⟨rfl, rfl, rfl, rfl⟩

/-! ### Claim C3 -/

/-- C3: `verify_token` clears and refetches the key set and makes a second
verification attempt exactly when the first decode fails with a signature
mismatch; any other first-decode failure is terminal (`Ok(false)`), and any
failure before the first decode (malformed header, unknown kid, bad RSA
components) is terminal with an error status — in all non-mismatch cases no
refetch and no retry happen. -/
theorem verify_token_retry_policy (env : TokenEnv) (cache0 : Option CachedJWKS) :
    ((verify_token env cache0).refetched = true ↔
      first_decode env cache0 = some (.error .invalidSignature)) ∧
    ((verify_token env cache0).retried = true ↔
      first_decode env cache0 = some (.error .invalidSignature)) ∧
    (first_decode env cache0 = some (.error .otherError) →
      (verify_token env cache0).result = .ok false ∧
      (verify_token env cache0).refetched = false ∧
      (verify_token env cache0).retried = false) ∧
    (first_decode env cache0 = none →
      ((verify_token env cache0).result = .error .unauthorized ∨
        (verify_token env cache0).result = .error .internalServerError) ∧
      (verify_token env cache0).refetched = false ∧
      (verify_token env cache0).retried = false) := by
  unfold verify_token first_decode
  cases hk : env.headerKid with
  | none => simp
  | some kid =>
    cases hf : (get_jwks cache0 env.now env.provider).1.keys.find? (fun k => k.kid == kid) with
    | none => simp [hf]
    | some key =>
      by_cases hr : env.rsaOk key = false
      · simp [hf, hr]
      · cases hd : env.decode key with
        | ok c => simp [hf, hr, hd]
        | error e =>
          cases e with
          | otherError => simp [hf, hr, hd]
          | invalidSignature =>
            cases hf2 : (get_jwks none env.now env.provider).1.keys.find? (fun k => k.kid == kid) with
            | none => simp [hf, hr, hd, hf2]
            | some fkey =>
              by_cases hr2 : env.rsaOk fkey = false
              · simp [hf, hr, hd, hf2, hr2]
              · cases hd2 : env.decode fkey with
                | ok c2 => simp [hf, hr, hd, hf2, hr2, hd2]
                | error e2 => simp [hf, hr, hd, hf2, hr2, hd2]

/-- Witness for C3: in the concrete retry scenario the refetch and the
retry do happen, and in a concrete other-failure scenario nothing is
refetched. -/
theorem verify_token_retry_policy_witness :
    (verify_token envExpiredRetry cacheOld).refetched = true ∧
    (verify_token envExpiredRetry cacheOld).retried = true := by
  exact ⟨(verify_token_retry_policy envExpiredRetry cacheOld).1.mpr rfl,
    (verify_token_retry_policy envExpiredRetry cacheOld).2.1.mpr rfl⟩

/-! ### Claim C5 -/

/-- C5: `SigningKeys::verify_signed_url` checks three independent gates in
order: an unknown `key_id` fails with "Key not found"; a known but expired
signing key fails with "Key is expired" regardless of the request's embedded
expiry; and once the key gates pass, an embedded `expires` earlier than the
current time fails with "URL expired" for every HMAC primitive, i.e. even
when the signature is valid. -/
theorem signing_keys_verify_gates (mac : Mac) (now : Nat) (sk : SigningKeys)
    (resp : SignUrlResponse) :
    (sk.keys.lookup resp.key_id = none →
      SigningKeys.verify_signed_url mac now sk resp = .error .keyNotFound) ∧
    (∀ key, sk.keys.lookup resp.key_id = some key → key.is_expired now = true →
      SigningKeys.verify_signed_url mac now sk resp = .error .keyExpired) ∧
    (∀ key e, sk.keys.lookup resp.key_id = some key → key.is_expired now = false →
      allExpParse resp.url.query = true →
      lastSig (seedSig resp) resp.url.query ≠ none →
      vExpires resp = some e → e < now →
      SigningKeys.verify_signed_url mac now sk resp = .error .urlExpired) := by
  refine ⟨?_, ?_, ?_⟩
  · intro h
    simp [SigningKeys.verify_signed_url, h]
  · intro key hl he
    simp [SigningKeys.verify_signed_url, hl, he]
  · intro key e hl he hq hs hexp hlt
    simp only [SigningKeys.verify_signed_url, hl, he, Bool.false_eq_true, if_false]
    rw [verify_signed_url_char mac now key resp hq]
    cases hsig : lastSig (seedSig resp) resp.url.query with
    | none => exact absurd hsig hs
    | some sigTag =>
      rw [hexp]
      simp [hlt]

/-- Witness for C5: all three gates observed on concrete inputs. -/
theorem signing_keys_verify_gates_witness :
    SigningKeys.verify_signed_url macFix 1000 skEmptyFix respNoKeyFix = .error .keyNotFound ∧
    SigningKeys.verify_signed_url macFix 6000 skWithKeyFix respUrlExpFix = .error .keyExpired ∧
    SigningKeys.verify_signed_url macFix 1000 skWithKeyFix respUrlExpFix = .error .urlExpired := by
  refine ⟨?_, ?_, ?_⟩
  · exact (signing_keys_verify_gates macFix 1000 skEmptyFix respNoKeyFix).1 rfl
  · exact (signing_keys_verify_gates macFix 6000 skWithKeyFix respUrlExpFix).2.1 keyFix rfl rfl
  · exact (signing_keys_verify_gates macFix 1000 skWithKeyFix respUrlExpFix).2.2 keyFix 5
      rfl rfl rfl (by decide) rfl (by decide)

/-! ### Claim C8 -/

theorem insertTxn_none_iff (serOk : FileDesc → Bool) (tbl : String → Option FileDesc)
    (ds : List FileDesc) :
    insertTxn serOk tbl ds = none ↔ ∃ d ∈ ds, serOk d = false := by
  induction ds generalizing tbl with
  | nil => simp [insertTxn]
  | cons d rest ih =>
    by_cases h : serOk d = true
    · simp [insertTxn, h, ih]
    · have hfalse : serOk d = false := by simpa using h
      refine iff_of_true ?_ ⟨d, List.mem_cons_self d rest, hfalse⟩
      simp [insertTxn, hfalse]

theorem insertTxn_ok_notin (serOk : FileDesc → Bool) :
    ∀ (ds : List FileDesc) (tbl : String → Option FileDesc) (t : String → Option FileDesc),
      insertTxn serOk tbl ds = some t →
      ∀ k, k ∉ ds.map FileDesc.id → t k = tbl k := by
  intro ds
  induction ds with
  | nil =>
    intro tbl t h k _
    simp only [insertTxn, Option.some_inj] at h
    rw [← h]
  | cons d rest ih =>
    intro tbl t h k hk
    by_cases hs : serOk d = true
    · simp only [insertTxn, hs, if_true] at h
      have hk1 : k ≠ d.id := by
        intro hkd
        exact hk (by simp [hkd])
      have hk2 : k ∉ rest.map FileDesc.id := by
        intro hmem
        exact hk (by simp [hmem])
      rw [ih _ _ h k hk2, updateMap, if_neg hk1]
    · simp [insertTxn, hs] at h

theorem insertTxn_ok_mem (serOk : FileDesc → Bool) :
    ∀ (ds : List FileDesc) (tbl : String → Option FileDesc) (t : String → Option FileDesc),
      insertTxn serOk tbl ds = some t → (ds.map FileDesc.id).Nodup →
      ∀ d ∈ ds, t d.id = some d := by
  intro ds
  induction ds with
  | nil => intro tbl t _ _ d hd; cases hd
  | cons d rest ih =>
    intro tbl t h hnd x hx
    by_cases hs : serOk d = true
    · simp only [insertTxn, hs, if_true] at h
      have hnd2 := hnd
      simp only [List.map_cons, List.nodup_cons] at hnd2
      rcases List.mem_cons.mp hx with hxd | hxr
      · subst hxd
        rw [insertTxn_ok_notin serOk rest _ t h x.id hnd2.1, updateMap, if_pos rfl]
      · exact ih _ _ h hnd2.2 x hxr
    · simp [insertTxn, hs] at h

/-- C8: `insert_file_descs` writes a batch inside one write transaction,
atomically: the call fails exactly when serialize-plus-insert fails for some
descriptor of the batch, and in that case the transaction is not committed —
the committed store is returned unchanged, no descriptor of the batch
becomes visible; on success, every batch descriptor is visible under its id
(with pairwise-distinct ids) and no other id is touched. -/
theorem insert_file_descs_atomic (serOk : FileDesc → Bool) (st : StorageState)
    (ds : List FileDesc) :
    (Storage.insert_file_descs serOk st ds = .error () ↔ ∃ d ∈ ds, serOk d = false) ∧
    (∀ st2, Storage.insert_file_descs serOk st ds = .ok st2 →
      ((ds.map FileDesc.id).Nodup → ∀ d ∈ ds, Storage.get_file_desc st2 d.id = some d) ∧
      (∀ k, k ∉ ds.map FileDesc.id →
        Storage.get_file_desc st2 k = Storage.get_file_desc st k) ∧
      st2.filenames = st.filenames) := by
  constructor
  · rw [← insertTxn_none_iff serOk st.filedesc ds]
    unfold Storage.insert_file_descs
    cases h : insertTxn serOk st.filedesc ds with
    | none => simp
    | some t => simp
  · intro st2 h
    unfold Storage.insert_file_descs at h
    cases ht : insertTxn serOk st.filedesc ds with
    | none => rw [ht] at h; cases h
    | some t =>
      rw [ht] at h
      simp only [Except.ok.injEq] at h
      subst h
      refine ⟨?_, ?_, rfl⟩
      · intro hnd d hd
        exact insertTxn_ok_mem serOk ds st.filedesc t ht hnd d hd
      · intro k hk
        exact insertTxn_ok_notin serOk ds st.filedesc t ht k hk

/-- Witness for C8: a failing batch is rejected whole, a succeeding batch
is fully visible. -/
theorem insert_file_descs_atomic_witness :
    (Storage.insert_file_descs (fun d => decide (d.id ≠ "bad")) stEmptyFix [descAFix, descBadFix] =
      .error ()) ∧
    (Storage.insert_file_descs serTrueFix stEmptyFix [descAFix, descBFix]).map
      (fun st2 => (Storage.get_file_desc st2 "a", Storage.get_file_desc st2 "b")) =
      .ok (some descAFix, some descBFix) := by
  constructor
  · exact (insert_file_descs_atomic (fun d => decide (d.id ≠ "bad")) stEmptyFix
      [descAFix, descBadFix]).1.mpr ⟨descBadFix, by simp, by simp [descBadFix]⟩
  · cases h : Storage.insert_file_descs serTrueFix stEmptyFix [descAFix, descBFix] with
    | error e =>
      cases e
      have := (insert_file_descs_atomic serTrueFix stEmptyFix [descAFix, descBFix]).1.mp h
      simp [serTrueFix] at this
    | ok st2 =>
      have hvis := ((insert_file_descs_atomic serTrueFix stEmptyFix [descAFix, descBFix]).2
        st2 h).1 (by decide)
      have ha : Storage.get_file_desc st2 "a" = some descAFix := hvis descAFix (by simp)
      have hb : Storage.get_file_desc st2 "b" = some descBFix := hvis descBFix (by simp)
      simp only [Except.map, ha, hb]

/-! ### Claim C6 -/

/-- C6: `channel_descriptions` replaces a channel's cache slot, and the
Stage-B pipeline forwards the merged snapshot, exactly when the merged
result's per-entry `(file name, description, publish date)` tuple sequence
differs from the cached snapshot for that channel id or no cached snapshot
exists; otherwise the cache (all slots) is left unchanged and nothing is
forwarded. -/
theorem channel_descriptions_gate (nc : String → String)
    (sortPhoto cleanSortAv : List MediaEntry → List MediaEntry)
    (st : StorageState) (ch : Channel) (cache : ChCache) (now : Nat) (cid : String) :
    ((Storage.channel_descriptions nc sortPhoto cleanSortAv st ch cache now).1.2 = true ↔
      ∀ p, cache ch.cache_id = some p →
        entryInfo (Storage.channel_descriptions nc sortPhoto cleanSortAv st ch cache now).1.1.entries ≠
          entryInfo p.1.entries) ∧
    ((Storage.channel_descriptions nc sortPhoto cleanSortAv st ch cache now).1.2 = true →
      (Storage.channel_descriptions nc sortPhoto cleanSortAv st ch cache now).2 ch.cache_id =
        some ((Storage.channel_descriptions nc sortPhoto cleanSortAv st ch cache now).1.1, now) ∧
      ∀ k, k ≠ ch.cache_id →
        (Storage.channel_descriptions nc sortPhoto cleanSortAv st ch cache now).2 k = cache k) ∧
    ((Storage.channel_descriptions nc sortPhoto cleanSortAv st ch cache now).1.2 = false →
      (Storage.channel_descriptions nc sortPhoto cleanSortAv st ch cache now).2 = cache) ∧
    fill_descriptions_step nc sortPhoto cleanSortAv st (cid, ch) cache now =
      ((Storage.channel_descriptions nc sortPhoto cleanSortAv st ch cache now).2,
        if (Storage.channel_descriptions nc sortPhoto cleanSortAv st ch cache now).1.2 then
          some (cid, (Storage.channel_descriptions nc sortPhoto cleanSortAv st ch cache now).1.1)
        else none) := by
  refine ⟨?_, ?_, ?_, rfl⟩
  · simp only [Storage.channel_descriptions]
    cases hc : cache ch.cache_id with
    | none => simp
    | some p => simp [hc]
  · simp only [Storage.channel_descriptions]
    cases hc : cache ch.cache_id with
    | none =>
      intro _
      refine ⟨by simp, ?_⟩
      intro k hk
      simp [if_neg hk]
    | some p =>
      intro hch
      simp only [hc] at hch ⊢
      simp only [hch]
      refine ⟨by simp, ?_⟩
      intro k hk
      simp [if_neg hk, hch]
  · simp only [Storage.channel_descriptions]
    cases hc : cache ch.cache_id with
    | none => intro hch; cases hch
    | some p =>
      intro hch
      simp only [hc] at hch ⊢
      simp [hch]

/-- Witness for C6: on an empty cache the snapshot counts as changed, the
slot is written and the message is forwarded. -/
theorem channel_descriptions_gate_witness :
    (Storage.channel_descriptions ncFix sortFix sortFix stEmptyFix chFix emptyChCacheFix 42).1.2 =
      true ∧
    (Storage.channel_descriptions ncFix sortFix sortFix stEmptyFix chFix emptyChCacheFix 42).2
      chFix.cache_id =
      some ((Storage.channel_descriptions ncFix sortFix sortFix stEmptyFix chFix emptyChCacheFix
        42).1.1, 42) ∧
    (fill_descriptions_step ncFix sortFix sortFix stEmptyFix ("en/c", chFix) emptyChCacheFix
        42).2 =
      some ("en/c",
        (Storage.channel_descriptions ncFix sortFix sortFix stEmptyFix chFix emptyChCacheFix
          42).1.1) := by
  have hgate := channel_descriptions_gate ncFix sortFix sortFix stEmptyFix chFix emptyChCacheFix
    42 "en/c"
  have hch : (Storage.channel_descriptions ncFix sortFix sortFix stEmptyFix chFix
      emptyChCacheFix 42).1.2 = true := by
    apply hgate.1.mpr
    intro p hp
    cases hp
  refine ⟨hch, (hgate.2.1 hch).1, ?_⟩
  rw [hgate.2.2.2, hch]
  rfl

/-! ### Claim C7 -/

theorem scanLoop_filenames (parse : String → Except Unit (List FileDesc))
    (serOk : FileDesc → Bool) :
    ∀ (fs : List String) (st : StorageState) (p w : Nat) (out : ScanOutcome),
      scanLoop parse serOk fs st p w = .ok out → out.st.filenames = st.filenames := by
  intro fs
  induction fs with
  | nil =>
    intro st p w out h
    simp only [scanLoop, Except.ok.injEq] at h
    rw [← h]
  | cons f rest ih =>
    intro st p w out h
    simp only [scanLoop] at h
    cases hp : parse f with
    | error e =>
      simp only [hp] at h
      exact ih st (p + 1) w out h
    | ok records =>
      simp only [hp] at h
      cases hi : Storage.insert_file_descs serOk st records with
      | error e => simp only [hi] at h; cases h
      | ok st2 =>
        simp only [hi] at h
        have hfn : st2.filenames = st.filenames := by
          unfold Storage.insert_file_descs at hi
          cases ht : insertTxn serOk st.filedesc records with
          | none => rw [ht] at hi; cases hi
          | some t =>
            rw [ht] at hi
            simp only [Except.ok.injEq] at hi
            rw [← hi]
        rw [ih st2 (p + 1) (w + records.length) out h, hfn]

/-- C7: running the descriptor-extraction scan twice over an unchanged
directory is idempotent: after the first run every matching filename is in
the seen-filenames table, and the second run parses zero documents and
writes zero descriptors. -/
theorem scan_and_store_idempotent (parse : String → Except Unit (List FileDesc))
    (serOk : FileDesc → Bool) (rx : String → Bool) (dirFiles : List String)
    (st0 : StorageState) (out1 : ScanOutcome)
    (h1 : scan_and_store parse serOk rx dirFiles st0 = .ok out1) :
    (∀ f ∈ (dirFiles.filter rx).eraseDups, Storage.filename_exists out1.st f = true) ∧
    scan_and_store parse serOk rx dirFiles out1.st =
      .ok ⟨Storage.insert_filenames out1.st ((dirFiles.filter rx).eraseDups), 0, 0⟩ := by
  have hfn : out1.st.filenames = st0.filenames ++ (dirFiles.filter rx).eraseDups := by
    simp only [scan_and_store] at h1
    cases hl : scanLoop parse serOk
        (sortStrings (((dirFiles.filter rx).eraseDups).filter
          (fun f => !(Storage.filename_exists st0 f)))) st0 0 0 with
    | error e => simp only [hl] at h1; cases h1
    | ok out =>
      simp only [hl] at h1
      simp only [Except.ok.injEq] at h1
      rw [← h1]
      show (Storage.insert_filenames out.st ((dirFiles.filter rx).eraseDups)).filenames = _
      unfold Storage.insert_filenames
      rw [scanLoop_filenames parse serOk _ _ _ _ _ hl]
  have hseen : ∀ f ∈ (dirFiles.filter rx).eraseDups, Storage.filename_exists out1.st f = true := by
    intro f hf
    unfold Storage.filename_exists
    rw [hfn]
    simp [hf]
  refine ⟨hseen, ?_⟩
  have hnew : ((dirFiles.filter rx).eraseDups).filter
      (fun f => !(Storage.filename_exists out1.st f)) = [] := by
    apply List.filter_eq_nil_iff.mpr
    intro f hf
    simp [hseen f hf]
  simp only [scan_and_store]
  rw [hnew]
  rfl

/-- Witness for C7 at a concrete one-document directory. -/
theorem scan_and_store_idempotent_witness :
    scan_and_store parseFix serTrueFix rxTrueFix dirFilesFix st1Fix =
      .ok ⟨Storage.insert_filenames st1Fix ((dirFilesFix.filter rxTrueFix).eraseDups), 0, 0⟩ := by
  have h1 : scan_and_store parseFix serTrueFix rxTrueFix dirFilesFix stEmptyFix =
      .ok ⟨st1Fix, 1, 1⟩ := rfl
  exact (scan_and_store_idempotent parseFix serTrueFix rxTrueFix dirFilesFix stEmptyFix
    ⟨st1Fix, 1, 1⟩ h1).2

/-! ### Claim C4 -/

theorem lastSig_quad (s0 : Option String) (ev rid kid sig : String) :
    lastSig s0 [("expires", ev), ("id", rid), ("key_id", kid), ("signature", sig)] =
      some sig := by
  simp [lastSig_cons, lastSig]

theorem lastExp_quad (e0 : Option Nat) (n : Nat) (rid kid sig : String) :
    lastExp e0 [("expires", u64ToString n), ("id", rid), ("key_id", kid), ("signature", sig)] =
      some n := by
  simp [lastExp_cons, lastExp, parseU64?_u64ToString]

theorem allExpParse_quad (n : Nat) (rid kid sig : String) :
    allExpParse [("expires", u64ToString n), ("id", rid), ("key_id", kid), ("signature", sig)] =
      true := by
  simp [allExpParse, parseU64?_u64ToString]

theorem nonSigParts_quad (ev rid kid sig : String) :
    nonSigParts [("expires", ev), ("id", rid), ("key_id", kid), ("signature", sig)] =
      [queryPairString ("expires", ev), queryPairString ("id", rid),
        queryPairString ("key_id", kid)] := by
  simp [nonSigParts]

/-- The signed URL's query is the request's query followed by the appended
`expires`, `id`, `key_id` and `signature` pairs, in that order. -/
theorem generate_query (mac : Mac) (fid : String) (now : Nat) (key : HmacSigningKey)
    (req : SignUrlRequest) :
    (HmacSigningKey.generate_signed_url mac fid now key req).url.query =
      req.url.query ++
        [("expires", u64ToString (now + key.expires_in_secs)),
         ("id", (HmacSigningKey.generate_signed_url mac fid now key req).id),
         ("key_id", key.key_id),
         ("signature", (HmacSigningKey.generate_signed_url mac fid now key req).signature)] := by
  have h0 : (HmacSigningKey.generate_signed_url mac fid now key req).url.query =
      (req.url.query ++
        [("expires", u64ToString (now + key.expires_in_secs)),
         ("id", (HmacSigningKey.generate_signed_url mac fid now key req).id),
         ("key_id", key.key_id)]) ++
        [("signature", (HmacSigningKey.generate_signed_url mac fid now key req).signature)] := rfl
  rw [h0, List.append_assoc]
  rfl

/-- The verifier extracts the appended signature from a signed URL. -/
theorem generate_sig_extract (mac : Mac) (fid : String) (now : Nat) (key : HmacSigningKey)
    (req : SignUrlRequest) :
    lastSig (seedSig (HmacSigningKey.generate_signed_url mac fid now key req))
        (HmacSigningKey.generate_signed_url mac fid now key req).url.query =
      some (HmacSigningKey.generate_signed_url mac fid now key req).signature := by
  rw [generate_query, lastSig_append, lastSig_quad]

/-- The verifier extracts the appended expiry from a signed URL. -/
theorem generate_exp_extract (mac : Mac) (fid : String) (now : Nat) (key : HmacSigningKey)
    (req : SignUrlRequest) :
    vExpires (HmacSigningKey.generate_signed_url mac fid now key req) =
      some (now + key.expires_in_secs) := by
  unfold vExpires
  rw [generate_query, lastExp_append, lastExp_quad]

/-- Every `expires` value of a signed URL parses, provided the original
query's did. -/
theorem generate_allExpParse (mac : Mac) (fid : String) (now : Nat) (key : HmacSigningKey)
    (req : SignUrlRequest) (hq : allExpParse req.url.query = true) :
    allExpParse (HmacSigningKey.generate_signed_url mac fid now key req).url.query = true := by
  rw [generate_query, allExpParse_append, hq, allExpParse_quad]
  rfl

/-- The string over which the verifier recomputes the HMAC of a signed URL,
in closed form: uppercased defaulted method, path, and the canonical query
of the request query plus the appended pairs, in order of appearance. -/
theorem generate_vString (mac : Mac) (fid : String) (now : Nat) (key : HmacSigningKey)
    (req : SignUrlRequest) :
    vStringToSign (HmacSigningKey.generate_signed_url mac fid now key req) =
      strToUpper (if req.method = "" then "GET" else req.method) ++ req.url.path ++
        fullQueryOf (canonicalQueryOf (req.url.query ++
          [("expires", u64ToString (now + key.expires_in_secs)),
           ("id", (HmacSigningKey.generate_signed_url mac fid now key req).id),
           ("key_id", key.key_id)])) := by
  unfold vStringToSign
  rw [generate_query, nonSigParts_append, nonSigParts_quad]
  have hc : canonicalQueryOf (req.url.query ++
      [("expires", u64ToString (now + key.expires_in_secs)),
       ("id", (HmacSigningKey.generate_signed_url mac fid now key req).id),
       ("key_id", key.key_id)]) =
      String.intercalate "&" (nonSigParts req.url.query ++
        [queryPairString ("expires", u64ToString (now + key.expires_in_secs)),
         queryPairString ("id", (HmacSigningKey.generate_signed_url mac fid now key req).id),
         queryPairString ("key_id", key.key_id)]) := by
    show String.intercalate "&" (nonSigParts (req.url.query ++ _)) = _
    rw [nonSigParts_append]
    simp [nonSigParts]
  rw [hc]
  rfl

/-- C4 (amended): the canonical string both signer and verifier compute is
`METHOD + PATH + '?' + query`, with the non-`signature` query parameters in
their order of appearance in the URL — the original parameters first, then
the appended `expires`, `id`, `key_id` — not in sorted order; signer and
verifier produce the string byte-identically: the embedded signature is the
HMAC of exactly the string the verifier recomputes. -/
theorem canonical_string_agreement (mac : Mac) (fid : String) (now : Nat)
    (key : HmacSigningKey) (req : SignUrlRequest) :
    (HmacSigningKey.generate_signed_url mac fid now key req).signature =
      mac key.secret (vStringToSign (HmacSigningKey.generate_signed_url mac fid now key req)) ∧
    vStringToSign (HmacSigningKey.generate_signed_url mac fid now key req) =
      strToUpper (if req.method = "" then "GET" else req.method) ++ req.url.path ++
        fullQueryOf (canonicalQueryOf (req.url.query ++
          [("expires", u64ToString (now + key.expires_in_secs)),
           ("id", (HmacSigningKey.generate_signed_url mac fid now key req).id),
           ("key_id", key.key_id)])) := by
  refine ⟨?_, generate_vString mac fid now key req⟩
  rw [generate_vString mac fid now key req]
  rfl

/-- Counterexample for C4 as frozen: with one pre-existing query parameter
`z=1`, the canonical string the code signs lists `z` first (order of
appearance), while the spec's sorted canonicalization lists it last — the
two disagree, and the signature is the HMAC of the unsorted string. -/
theorem canonical_string_sorted_counterexample :
    canonicalQueryOf (reqFix.url.query ++
        [("expires", u64ToString 400), ("id", "rid"), ("key_id", "k1")]) ≠
      specSortedCanonicalQueryOf (reqFix.url.query ++
        [("expires", u64ToString 400), ("id", "rid"), ("key_id", "k1")]) ∧
    (HmacSigningKey.generate_signed_url macFix "f" 100 keyFix reqFix).signature =
      macFix keyFix.secret ("GET" ++ "/f" ++ "?" ++
        canonicalQueryOf (reqFix.url.query ++
          [("expires", u64ToString 400), ("id", "rid"), ("key_id", "k1")])) := by
  constructor
  · decide
  · rfl

/-! ### Claim C1 -/

theorem mutateQuery_query (resp : SignUrlResponse) (q : List (String × String)) :
    (mutateQuery resp q).url.query = q := rfl

theorem mutateQuery_seedSig (resp : SignUrlResponse) (q : List (String × String)) :
    seedSig (mutateQuery resp q) = seedSig resp := rfl

theorem mutateQuery_vExpires (resp : SignUrlResponse) (q : List (String × String)) :
    vExpires (mutateQuery resp q) = lastExp (seedExp resp) q := rfl

/-- C1 (amended): for every request whose pre-existing query values under
the key `expires` all parse as decimal numbers, the sign/verify round trip
with the same key succeeds when checked at or before the embedded expiry and
fails with "URL expired" after it; and a post-signing mutation of any
non-`signature` query parameter fails with "Invalid signature" provided
verification is checked before the (possibly mutated) embedded expiry, all
`expires` values of the mutated URL still parse, and the recomputed HMAC tag
differs from the embedded one (mutating `expires` itself to a past instant
instead fails with "URL expired", and a non-parsing value fails with the
parse error — see the counterexample). -/
theorem signed_url_roundtrip (mac : Mac) (key : HmacSigningKey) (req : SignUrlRequest)
    (fid : String) (now tv : Nat) (hq : allExpParse req.url.query = true) :
    (tv ≤ now + key.expires_in_secs →
      HmacSigningKey.verify_signed_url mac tv key
          (HmacSigningKey.generate_signed_url mac fid now key req) =
        .ok (HmacSigningKey.generate_signed_url mac fid now key req).url) ∧
    (now + key.expires_in_secs < tv →
      HmacSigningKey.verify_signed_url mac tv key
          (HmacSigningKey.generate_signed_url mac fid now key req) =
        .error .urlExpired) ∧
    (∀ pre post kv v2,
      (HmacSigningKey.generate_signed_url mac fid now key req).url.query = pre ++ kv :: post →
      kv.1 ≠ "signature" →
      allExpParse (pre ++ (kv.1, v2) :: post) = true →
      (∀ n, lastExp (seedExp (HmacSigningKey.generate_signed_url mac fid now key req))
          (pre ++ (kv.1, v2) :: post) = some n → tv ≤ n) →
      mac key.secret (vStringToSign (mutateQuery
          (HmacSigningKey.generate_signed_url mac fid now key req)
          (pre ++ (kv.1, v2) :: post))) ≠
        (HmacSigningKey.generate_signed_url mac fid now key req).signature →
      HmacSigningKey.verify_signed_url mac tv key
          (mutateQuery (HmacSigningKey.generate_signed_url mac fid now key req)
            (pre ++ (kv.1, v2) :: post)) =
        .error .invalidSignature) := by
  have hall := generate_allExpParse mac fid now key req hq
  have hchar := verify_signed_url_char mac tv key
    (HmacSigningKey.generate_signed_url mac fid now key req) hall
  rw [generate_sig_extract, generate_exp_extract] at hchar
  dsimp only at hchar
  have hmacok : mac key.secret
      (vStringToSign (HmacSigningKey.generate_signed_url mac fid now key req)) =
      (HmacSigningKey.generate_signed_url mac fid now key req).signature := by
    rw [generate_vString]
    rfl
  refine ⟨?_, ?_, ?_⟩
  · intro hle
    rw [hchar, if_neg (by omega : ¬ tv > now + key.expires_in_secs), hmacok]
    simp
  · intro hgt
    rw [hchar, if_pos (by omega : tv > now + key.expires_in_secs)]
  · intro pre post kv v2 hdec hk hall2 hfresh hmac
    have hallm : allExpParse
        (mutateQuery (HmacSigningKey.generate_signed_url mac fid now key req)
          (pre ++ (kv.1, v2) :: post)).url.query = true := by
      rw [mutateQuery_query]
      exact hall2
    have hcharm := verify_signed_url_char mac tv key
      (mutateQuery (HmacSigningKey.generate_signed_url mac fid now key req)
        (pre ++ (kv.1, v2) :: post)) hallm
    rw [mutateQuery_query, mutateQuery_seedSig, mutateQuery_vExpires] at hcharm
    have hsig : lastSig (seedSig (HmacSigningKey.generate_signed_url mac fid now key req))
        (pre ++ (kv.1, v2) :: post) =
        some (HmacSigningKey.generate_signed_url mac fid now key req).signature := by
      have h2 : lastSig (seedSig (HmacSigningKey.generate_signed_url mac fid now key req))
          (pre ++ (kv.1, v2) :: post) =
          lastSig (seedSig (HmacSigningKey.generate_signed_url mac fid now key req))
            (pre ++ kv :: post) := by
        simp only [lastSig_append, lastSig_cons]
        rw [if_neg hk, if_neg hk]
      rw [h2, ← hdec, generate_sig_extract]
    rw [hsig] at hcharm
    dsimp only at hcharm
    cases he : lastExp (seedExp (HmacSigningKey.generate_signed_url mac fid now key req))
        (pre ++ (kv.1, v2) :: post) with
    | none =>
      rw [he] at hcharm
      dsimp only at hcharm
      rw [hcharm, if_pos hmac]
    | some n =>
      rw [he] at hcharm
      dsimp only at hcharm
      have hn := hfresh n he
      rw [hcharm, if_neg (by omega : ¬ tv > n), if_pos hmac]

/-- Counterexample for C1 as frozen: (a) a request whose URL already
carries the non-numeric query parameter `expires=x` signs fine but fails
verification with the integer-parse error even when checked well before the
embedded expiry (timestamp 150 against expiry 400); (b) mutating the signed
URL's `expires` parameter to the past value `5` fails with "URL expired",
not "Invalid signature". -/
theorem signed_url_roundtrip_counterexample :
    HmacSigningKey.verify_signed_url macFix 150 keyFix
        (HmacSigningKey.generate_signed_url macFix "f" 100 keyFix reqBadExp) =
      .error .parseIntError ∧
    HmacSigningKey.verify_signed_url macFix 150 keyFix
        (mutateQuery (HmacSigningKey.generate_signed_url macFix "f" 100 keyFix reqFix)
          ((HmacSigningKey.generate_signed_url macFix "f" 100 keyFix
            reqFix).url.query.set 1 ("expires", "5"))) =
      .error .urlExpired := by
  exact ⟨rfl, rfl⟩

/-- Witness for C1 (amended) at concrete inputs: success before expiry,
"URL expired" after it, and "Invalid signature" for a mutated `id`
parameter checked before expiry. -/
theorem signed_url_roundtrip_witness :
    HmacSigningKey.verify_signed_url macFix 150 keyFix
        (HmacSigningKey.generate_signed_url macFix "f" 100 keyFix reqFix) =
      .ok (HmacSigningKey.generate_signed_url macFix "f" 100 keyFix reqFix).url ∧
    HmacSigningKey.verify_signed_url macFix 500 keyFix
        (HmacSigningKey.generate_signed_url macFix "f" 100 keyFix reqFix) =
      .error .urlExpired ∧
    HmacSigningKey.verify_signed_url macFix 150 keyFix
        (mutateQuery (HmacSigningKey.generate_signed_url macFix "f" 100 keyFix reqFix)
          ([("z", "1"), ("expires", u64ToString 400)] ++ ("id", "evil") ::
            [("key_id", "k1"),
             ("signature",
               (HmacSigningKey.generate_signed_url macFix "f" 100 keyFix reqFix).signature)])) =
      .error .invalidSignature := by
  refine ⟨?_, ?_, ?_⟩
  · exact (signed_url_roundtrip macFix keyFix reqFix "f" 100 150 (by decide)).1 (by decide)
  · exact (signed_url_roundtrip macFix keyFix reqFix "f" 100 500 (by decide)).2.1 (by decide)
  · refine (signed_url_roundtrip macFix keyFix reqFix "f" 100 150 (by decide)).2.2
      [("z", "1"), ("expires", u64ToString 400)]
      [("key_id", "k1"),
       ("signature", (HmacSigningKey.generate_signed_url macFix "f" 100 keyFix
         reqFix).signature)]
      ("id", "rid") "evil" rfl (by decide) (by decide) ?_ (by decide)
    intro n hn
    have h400 : lastExp (seedExp (HmacSigningKey.generate_signed_url macFix "f" 100 keyFix
        reqFix))
        ([("z", "1"), ("expires", u64ToString 400)] ++ ("id", "evil") ::
          [("key_id", "k1"),
           ("signature",
             (HmacSigningKey.generate_signed_url macFix "f" 100 keyFix reqFix).signature)]) =
        some 400 := rfl
    rw [h400] at hn
    injection hn with h
    omega

end FileSync
